import Mathlib

/-!
Shallow embedding of the `rserve` utility library (`src/lib.rs`) and proofs
about its specification.  Pure logic is translated directly; stateful pieces
(the global `CONFIG`, file and network I/O) are modeled by explicit state
passing and by returning the written data.
-/

namespace RserveUtils

/-- Capacity `MAX_ENTRIES` of the measurement history
(24 hours of data at 5 minutes per measurement). -/
def MAX_ENTRIES : Nat := 288

/-- Log levels (`enum LogLevel`), variants in the source's declaration order. -/
inductive LogLevel where
  | Trace
  | Debug
  | Info
  | Warn
  | Error
deriving DecidableEq

/-- Discriminant of a `LogLevel` variant (its declaration position). -/
def LogLevel.disc : LogLevel → Nat
  | .Trace => 0
  | .Debug => 1
  | .Info => 2
  | .Warn => 3
  | .Error => 4

/-- The derived ordering on the field-less enum `LogLevel` compares
discriminants; this is the Boolean `<=` used by `ulog`. -/
def LogLevel.ble (a b : LogLevel) : Bool := Nat.ble a.disc b.disc

/-- Process configuration (`struct Config`); `PathBuf` is modeled as the path string. -/
structure Config where
  debug : Bool
  s1 : Bool
  s2 : Bool
  s3 : Bool
  llevel : LogLevel
  lfile : String
deriving DecidableEq

/-- Initial configuration `Config::new()`, the startup value of the global `CONFIG`. -/
def Config.new : Config :=
  { debug := false
    s1 := true
    s2 := true
    s3 := true
    llevel := LogLevel.Info
    lfile := "/tmp/rserve.log" }

/-- The derived `Clone` for `Config`: a field-by-field copy. -/
def Config.clone (c : Config) : Config :=
  { debug := c.debug
    s1 := c.s1
    s2 := c.s2
    s3 := c.s3
    llevel := c.llevel
    lfile := c.lfile }

/-- Accessor `get_cfg()`: locks the global configuration and returns a clone of it.
Modeled with explicit state: the argument is the global state, the result is
(returned value, global state afterwards). -/
def get_cfg (globalCfg : Config) : Config × Config :=
  (globalCfg.clone, globalCfg)

/-- Setter `set_cfg(new_cfg)`: locks the global configuration and overwrites it. -/
def set_cfg (_globalCfg : Config) (new_cfg : Config) : Unit × Config :=
  ((), new_cfg)

/-- Reading a snapshot via `get_cfg` and then mutating the returned value with
an arbitrary updater `f`; result is (the mutated copy, the global state after
both steps). -/
def mutateSnapshot (globalCfg : Config) (f : Config → Config) : Config × Config :=
  (f (get_cfg globalCfg).1, (get_cfg globalCfg).2)

/-- Measurement history (`struct StateBuffer`): the entry vector and the next write index. -/
structure StateBuffer where
  buffer : List String
  index : Nat
deriving DecidableEq

/-- Constructor `StateBuffer::new()`. -/
def StateBuffer.new : StateBuffer := { buffer := [], index := 0 }

/-- Method `StateBuffer::add`: push while under `MAX_ENTRIES`, otherwise overwrite the
slot at `index`; in both cases the index then advances modulo `MAX_ENTRIES`. -/
def StateBuffer.add (sb : StateBuffer) (entry : String) : StateBuffer :=
  { buffer :=
      if sb.buffer.length < MAX_ENTRIES then sb.buffer ++ [entry]
      else sb.buffer.set sb.index entry
    index := (sb.index + 1) % MAX_ENTRIES }

/-- Method `StateBuffer::get_all`: returns the backing storage as-is. -/
def StateBuffer.get_all (sb : StateBuffer) : List String := sb.buffer

/-- A sequence of `add` calls applied to a fresh `StateBuffer::new()`. -/
def addAll (es : List String) : StateBuffer :=
  es.foldl StateBuffer.add StateBuffer.new

/-- The `Debug`-format name of a `LogLevel` (Rust `{:?}`). -/
def LogLevel.name : LogLevel → String
  | .Trace => "Trace"
  | .Debug => "Debug"
  | .Info => "Info"
  | .Warn => "Warn"
  | .Error => "Error"

/-- One formatted log line, `[Level] msg`, as written by `writeln!`. -/
def logLine (level : LogLevel) (msg : String) : String :=
  "[" ++ level.name ++ "] " ++ msg

/-- Function `perr`: appends one formatted line to the log file named by `cfg.lfile`.
Modeled as the list of (file name, line) appends it performs. -/
def perr (cfg : Config) (level : LogLevel) (msg : String) : List (String × String) :=
  [(cfg.lfile, logLine level msg)]

/-- Function `ulog`: writes to the supplied sink depending on the configured level;
`Trace` and `Debug` are gated on `cfg.llevel`, `Info` and `Warn` are always
emitted, and `Error` is additionally appended to the log file via `perr`.
Modeled as (lines written to the sink, (file, line) pairs appended). -/
def ulog (cfg : Config) (level : LogLevel) (msg : String) :
    List String × List (String × String) :=
  match level with
  | .Trace =>
      (if cfg.llevel.ble .Trace then [logLine .Trace msg] else [], [])
  | .Debug =>
      (if cfg.llevel.ble .Debug then [logLine .Debug msg] else [], [])
  | .Info => ([logLine .Info msg], [])
  | .Warn => ([logLine .Warn msg], [])
  | .Error => ([logLine .Error msg], perr cfg .Error msg)

/-- IEEE-754 classification model of a floating-point value: the class plus
enough payload to distinguish distinct values within a class (sign bit, and
significand/exponent data for finite values).  This is exactly the level of
detail `is_normal`-based validation observes. -/
inductive FP where
  | nan : FP
  | inf : Bool → FP
  | zero : Bool → FP
  | subnormal : Bool → Nat → FP
  | normal : Bool → Nat → Int → FP
deriving DecidableEq

/-- Rust `is_normal()`: the value is neither zero, subnormal, infinite nor
NaN. -/
def FP.isNormalFP : FP → Bool
  | .normal _ _ _ => true
  | _ => false

/-- IEEE / Rust `==` on floats: NaN is unequal to everything (itself
included), the two signed zeros are equal, and otherwise values are equal
exactly when class and payload agree. -/
def FP.feq : FP → FP → Bool
  | .zero _, .zero _ => true
  | .inf s, .inf t => s == t
  | .subnormal s m, .subnormal t n => s == t && m == n
  | .normal s m e, .normal t n f => s == t && m == n && e == f
  | _, _ => false

/-- Rust `is_finite()`: not NaN and not infinite. -/
def FP.isFiniteFP : FP → Bool
  | .nan => false
  | .inf _ => false
  | _ => true

/-- Function `validate_f64`: `rval` starts as `0.0` and is replaced by `val` only when
`val.is_normal()`. -/
def validate_f64 (val : FP) : FP :=
  if val.isNormalFP then val else FP.zero false

/-- Function `validate_f32`: identical logic at `f32` width. -/
def validate_f32 (val : FP) : FP :=
  if val.isNormalFP then val else FP.zero false

/-- Substring test on character lists, the semantics of Rust
`str::contains` with a string pattern. -/
def containsSub (needle : List Char) : List Char → Bool
  | [] => needle.isEmpty
  | c :: t => needle.isPrefixOf (c :: t) || containsSub needle t

/-- Rust `String::contains` on our string model. -/
def strContains (hay needle : String) : Bool :=
  containsSub needle.data hay.data

/-- Outcome of CLI processing: either `usage()` terminated the process with
`process::exit` at the given code (after printing the usage text), or a
configuration was returned. -/
inductive CliOutcome where
  | exit : Int → CliOutcome
  | ok : Config → CliOutcome
deriving DecidableEq

/-- Function `usage()`: prints the usage text and calls `process::exit(-1)`. -/
def usageExit : CliOutcome := CliOutcome.exit (-1)

/-- Function `get_level`: maps a level-name string to its `LogLevel`; `none` models the
default match arm, which prints an error, prints usage and exits. -/
def get_level (lvl : String) : Option LogLevel :=
  if lvl = "trace" then some .Trace
  else if lvl = "debug" then some .Debug
  else if lvl = "dbg" then some .Debug
  else if lvl = "info" then some .Info
  else if lvl = "inf" then some .Info
  else if lvl = "warn" then some .Warn
  else if lvl = "warning" then some .Warn
  else if lvl = "error" then some .Error
  else if lvl = "err" then some .Error
  else none

/-- The argument loop of `cli()`: any argument containing `"rserve"` is
skipped (the check intended for `argv[0]`), the sensor/debug flags update the
configuration, `-h`/`--help` and unrecognized arguments reach `usage()`, and
`-l`/`--level` consume the following argument as a level name (exiting when it
is missing or not a supported name). -/
def cliLoop (cfg : Config) : List String → CliOutcome
  | [] => CliOutcome.ok cfg
  | arg :: rest =>
    if strContains arg "rserve" then cliLoop cfg rest
    else if arg = "-s1" then cliLoop { cfg with s1 := false } rest
    else if arg = "-s2" then cliLoop { cfg with s2 := false } rest
    else if arg = "-s3" then cliLoop { cfg with s3 := false } rest
    else if arg = "--debug" then cliLoop { cfg with debug := true, llevel := .Debug } rest
    else if arg = "-d" then cliLoop { cfg with debug := true, llevel := .Debug } rest
    else if arg = "--help" then usageExit
    else if arg = "-h" then usageExit
    else if arg = "--level" ∨ arg = "-l" then
      match rest with
      | [] => usageExit
      | lvl :: rest2 =>
        match get_level lvl with
        | some l => cliLoop { cfg with llevel := l } rest2
        | none => usageExit
    else usageExit

/-- Function `cli()`: processes `argv` (from `env::args`, so the program name is
`args[0]`) against the startup global configuration `Config::new()`; when
there is at most one argument the loop body is skipped entirely.  The
resulting configuration is returned unless `usage()` terminated the
process. -/
def cli (args : List String) : CliOutcome :=
  if 1 < args.length then cliLoop Config.new args else CliOutcome.ok Config.new

/-- What `notify` observes of the HTTP round trip: `transportError` models
`send()` returning `Err`, and `response` carries the result of extracting the
body text (`hres.text()`), which itself can fail. -/
inductive HttpOutcome where
  | transportError : String → HttpOutcome
  | response : Except String String → HttpOutcome

/-- Function `notify`: with no API key in the environment it returns `false`
immediately, before any request is built or sent (the model's result then does
not depend on the `HttpOutcome` at all); a transport error yields `false`;
otherwise the raw body text (or, when `text()` fails, the formatted error
string) is searched for the literal substring `":true"`. -/
def notify (apiKey : Option String) (out : HttpOutcome) : Bool :=
  match apiKey with
  | none => false
  | some _ =>
    match out with
    | .transportError _ => false
    | .response t =>
      let success :=
        match t with
        | .ok hrt => hrt
        | .error e => "notify: Error: json conversion: " ++ e
      strContains success ":true"

/-- A configuration whose log level is `Error`, used to exercise the logging
gates at the most restrictive level. -/
def cfgErrorLevel : Config := { Config.new with llevel := LogLevel.Error }

/-- A `StateBuffer` that is exactly at capacity. -/
def fullBuffer288 : StateBuffer :=
  { buffer := List.replicate MAX_ENTRIES ("a"), index := 0 }

/-- An add sequence one longer than the capacity, whose last entry differs
from the rest. -/
def wrapSeq : List String := List.replicate MAX_ENTRIES ("a") ++ [("c")]

theorem add_index (sb : StateBuffer) (e : String) :
    (sb.add e).index = (sb.index + 1) % MAX_ENTRIES := rfl

theorem add_buffer (sb : StateBuffer) (e : String) :
    (sb.add e).buffer =
      if sb.buffer.length < MAX_ENTRIES then sb.buffer ++ [e]
      else sb.buffer.set sb.index e := rfl

theorem addAll_concat (es : List String) (e : String) :
    addAll (es ++ [e]) = (addAll es).add e := by
  simp [addAll, List.foldl_append]

/-- Positional characterization of a fresh buffer after a sequence of adds:
the write index equals the number of adds modulo the capacity, the length is
`min n capacity`, and slot `i` holds the most recently added entry whose
0-based add position is congruent to `i` modulo the capacity. -/
theorem addAll_spec (es : List String) :
    (addAll es).index = es.length % MAX_ENTRIES ∧
    (addAll es).buffer.length = min es.length MAX_ENTRIES ∧
    ∀ i : Nat,
      (addAll es).buffer[i]? =
        if i < min es.length MAX_ENTRIES then
          es[i + MAX_ENTRIES * ((es.length - 1 - i) / MAX_ENTRIES)]?
        else none := by
  have hM : MAX_ENTRIES = 288 := rfl
  induction es using List.reverseRecOn with
  | nil => exact ⟨rfl, rfl, fun i => by simp [addAll, StateBuffer.new]⟩
  | append_singleton es e ih =>
    obtain ⟨hidx, hlen, hget⟩ := ih
    rw [addAll_concat]
    by_cases hfill : (addAll es).buffer.length < MAX_ENTRIES
    · -- still filling: push
      have hn : es.length < 288 := by rw [hlen, hM] at hfill; omega
      have m1 : min es.length MAX_ENTRIES = es.length := by rw [hM]; omega
      have m2 : min (es.length + 1) MAX_ENTRIES = es.length + 1 := by rw [hM]; omega
      refine ⟨?_, ?_, ?_⟩
      · rw [add_index, hidx]
        simp only [List.length_append, List.length_singleton, hM]
        omega
      · rw [add_buffer, if_pos hfill]
        simp only [List.length_append, List.length_singleton, hlen, m1, m2]
      · intro i
        rw [add_buffer, if_pos hfill, List.getElem?_append, hget i, hlen]
        simp only [List.length_append, List.length_singleton, m1, m2]
        split_ifs with h1 h2 h2
        · have d1 : (es.length - 1 - i) / MAX_ENTRIES = 0 := by rw [hM]; omega
          have d2 : (es.length + 1 - 1 - i) / MAX_ENTRIES = 0 := by rw [hM]; omega
          rw [d1, d2, Nat.mul_zero, Nat.add_zero, List.getElem?_append_left h1]
        · omega
        · have hi : i = es.length := by omega
          subst hi
          have d2 : (es.length + 1 - 1 - es.length) / MAX_ENTRIES = 0 := by rw [hM]; omega
          rw [d2, Nat.mul_zero, Nat.add_zero, Nat.sub_self, List.getElem?_concat_length]
          rfl
        · refine List.getElem?_eq_none ?_
          simp only [List.length_singleton]
          omega
    · -- at capacity: overwrite at the write index
      have hn : 288 ≤ es.length := by rw [hlen, hM] at hfill; omega
      have hblen : (addAll es).buffer.length = 288 := by rw [hlen, hM]; omega
      have m1 : min es.length 288 = 288 := by omega
      have m2 : min (es.length + 1) 288 = 288 := by omega
      refine ⟨?_, ?_, ?_⟩
      · rw [add_index, hidx]
        simp only [List.length_append, List.length_singleton, hM]
        omega
      · rw [add_buffer, if_neg hfill]
        simp only [List.length_set, hlen, List.length_append, List.length_singleton, hM, m1, m2]
      · intro i
        rw [add_buffer, if_neg hfill, hidx]
        simp only [List.length_append, List.length_singleton, hM, m2] at hget ⊢
        by_cases hir : i = es.length % 288
        · subst hir
          have hlt : es.length % 288 < (addAll es).buffer.length := by omega
          rw [List.getElem?_set_self hlt, if_pos (by omega)]
          have hj : es.length % 288 + 288 * ((es.length + 1 - 1 - es.length % 288) / 288) =
              es.length := by omega
          rw [hj, List.getElem?_concat_length]
        · rw [List.getElem?_set_ne (fun h => hir h.symm), hget i, m1]
          split_ifs with h1
          · have hj : i + 288 * ((es.length - 1 - i) / 288) =
                i + 288 * ((es.length + 1 - 1 - i) / 288) := by omega
            have hjlt : i + 288 * ((es.length + 1 - 1 - i) / 288) < es.length := by omega
            rw [hj, List.getElem?_append_left hjlt]
          · rfl

/-- While at most `MAX_ENTRIES` entries have been added, the buffer is exactly
the add sequence. -/
theorem addAll_buffer_of_le (es : List String) (h : es.length ≤ MAX_ENTRIES) :
    (addAll es).buffer = es := by
  have hM : MAX_ENTRIES = 288 := rfl
  obtain ⟨-, -, hget⟩ := addAll_spec es
  apply List.ext_getElem?
  intro i
  rw [hget i]
  simp only [hM] at h ⊢
  split_ifs with h1
  · have hd : (es.length - 1 - i) / 288 = 0 := by omega
    rw [hd, Nat.mul_zero, Nat.add_zero]
  · exact (List.getElem?_eq_none (by omega)).symm

/-- Each of the last `MAX_ENTRIES` adds is found at the slot given by its add
position modulo `MAX_ENTRIES`. -/
theorem addAll_slot (es : List String) (j : Nat) (h1 : j < es.length)
    (h2 : es.length ≤ j + MAX_ENTRIES) :
    (addAll es).buffer[j % MAX_ENTRIES]? = es[j]? := by
  have hM : MAX_ENTRIES = 288 := rfl
  obtain ⟨-, -, hget⟩ := addAll_spec es
  rw [hget (j % MAX_ENTRIES)]
  simp only [hM] at h2 ⊢
  rw [if_pos (by omega)]
  have hj : j % 288 + 288 * ((es.length - 1 - j % 288) / 288) = j := by omega
  rw [hj]

set_option maxRecDepth 4000 in
/-- Once wraparound has occurred, the physical buffer is the chronological
suffix of the last `MAX_ENTRIES` adds rotated at the write index. -/
theorem addAll_buffer_wrapped (es : List String) (h : MAX_ENTRIES ≤ es.length) :
    (addAll es).buffer =
      (es.drop (es.length - MAX_ENTRIES)).drop (MAX_ENTRIES - es.length % MAX_ENTRIES) ++
        (es.drop (es.length - MAX_ENTRIES)).take (MAX_ENTRIES - es.length % MAX_ENTRIES) := by
  have hM : MAX_ENTRIES = 288 := rfl
  obtain ⟨-, -, hget⟩ := addAll_spec es
  apply List.ext_getElem?
  intro i
  rw [hget i]
  simp only [hM] at h ⊢
  rw [List.getElem?_append, List.getElem?_drop, List.getElem?_drop, List.getElem?_take,
    List.getElem?_drop]
  simp only [List.length_drop]
  split_ifs with h1 h2 h3 h2 h3
  · congr 1
    omega
  · congr 1
    omega
  · exact List.getElem?_eq_none (by omega)
  · omega
  · omega
  · rfl

/-- After at least `MAX_ENTRIES` adds, the retained entries are exactly (a
permutation of) the last `MAX_ENTRIES` entries added. -/
theorem addAll_perm_last (es : List String) (h : MAX_ENTRIES ≤ es.length) :
    ((addAll es).buffer).Perm (es.drop (es.length - MAX_ENTRIES)) := by
  rw [addAll_buffer_wrapped es h]
  refine List.Perm.trans List.perm_append_comm ?_
  rw [List.take_append_drop]

/-- C1: for any sequence of `add` calls from a fresh buffer, `get_all` has
length `min n MAX_ENTRIES`; once the buffer is at capacity each `add`
overwrites the slot at the current write index and advances that index by one
modulo the capacity; and after `MAX_ENTRIES + k` adds precisely the last
`MAX_ENTRIES` entries added are retained (the physically-oldest entry is
evicted each time). -/
theorem stateBuffer_ring_eviction :
    (∀ es : List String, ((addAll es).get_all).length = min es.length MAX_ENTRIES)
  ∧ (∀ (sb : StateBuffer) (e : String), sb.buffer.length = MAX_ENTRIES →
      (sb.add e).buffer = sb.buffer.set sb.index e ∧
        (sb.add e).index = (sb.index + 1) % MAX_ENTRIES)
  ∧ (∀ es : List String, MAX_ENTRIES ≤ es.length →
      ((addAll es).get_all).Perm (es.drop (es.length - MAX_ENTRIES))) := by
  refine ⟨fun es => (addAll_spec es).2.1, fun sb e hf => ⟨?_, add_index sb e⟩,
    fun es h => addAll_perm_last es h⟩
  rw [add_buffer, if_neg (by omega)]

/-- C1 witness: the at-capacity `add` step at a concrete full buffer, and the
retention permutation at a concrete capacity-length add sequence. -/
theorem stateBuffer_ring_eviction_witness :
    ((fullBuffer288.add ("b")).buffer = fullBuffer288.buffer.set fullBuffer288.index ("b")
      ∧ (fullBuffer288.add ("b")).index = (fullBuffer288.index + 1) % MAX_ENTRIES)
  ∧ ((addAll (List.replicate 288 ("a"))).get_all).Perm
      ((List.replicate 288 ("a")).drop ((List.replicate 288 ("a")).length - MAX_ENTRIES)) :=
  ⟨stateBuffer_ring_eviction.2.1 fullBuffer288 ("b")
      (by rw [show fullBuffer288.buffer = List.replicate MAX_ENTRIES ("a") from rfl,
          List.length_replicate]),
   stateBuffer_ring_eviction.2.2 (List.replicate 288 ("a"))
      (by rw [List.length_replicate]; decide)⟩

/-- C8: after every add sequence from a fresh buffer, the write index equals
the number of adds modulo `MAX_ENTRIES` and the length is `min n MAX_ENTRIES`;
the index advances on every single `add` (also while the buffer is still
filling); and after exactly `MAX_ENTRIES` adds the index has wrapped to 0, so
the first overwrite lands on the oldest entry (slot 0). -/
theorem stateBuffer_index_invariant :
    (∀ es : List String,
      (addAll es).index = es.length % MAX_ENTRIES ∧
        (addAll es).buffer.length = min es.length MAX_ENTRIES)
  ∧ (∀ (sb : StateBuffer) (e : String), (sb.add e).index = (sb.index + 1) % MAX_ENTRIES)
  ∧ (∀ es : List String, es.length = MAX_ENTRIES →
      (addAll es).index = 0 ∧ ∀ e : String, ((addAll es).add e).buffer = es.set 0 e) := by
  refine ⟨fun es => ⟨(addAll_spec es).1, (addAll_spec es).2.1⟩, add_index, fun es h => ?_⟩
  have hidx : (addAll es).index = 0 := by
    rw [(addAll_spec es).1, h, Nat.mod_self]
  refine ⟨hidx, fun e => ?_⟩
  rw [add_buffer, if_neg (by rw [(addAll_spec es).2.1, h]; omega), hidx,
    addAll_buffer_of_le es (le_of_eq h)]

/-- C8 witness: after exactly `MAX_ENTRIES` adds the index is back at 0. -/
theorem stateBuffer_index_invariant_witness :
    (addAll (List.replicate 288 ("a"))).index = 0 :=
  (stateBuffer_index_invariant.2.2 (List.replicate 288 ("a"))
    (by rw [List.length_replicate]; decide)).1

/-- C2: `get_all` returns the physical slot order, with no re-rotation at the
write index: it is the raw backing vector; the entry of the `j`-th add (within
the retained window) occupies slot `j % MAX_ENTRIES`; and there is an add
sequence past capacity for which `get_all` differs from the chronological
order of the last `MAX_ENTRIES` entries — the wrap-point discontinuity. -/
theorem stateBuffer_physical_order :
    (∀ sb : StateBuffer, sb.get_all = sb.buffer)
  ∧ (∀ (es : List String) (j : Nat), j < es.length → es.length ≤ j + MAX_ENTRIES →
      ((addAll es).get_all)[j % MAX_ENTRIES]? = es[j]?)
  ∧ (∃ es : List String, MAX_ENTRIES < es.length ∧
      (addAll es).get_all ≠ es.drop (es.length - MAX_ENTRIES)) := by
  refine ⟨fun sb => rfl, fun es j h1 h2 => addAll_slot es j h1 h2, ⟨wrapSeq, ?_, ?_⟩⟩
  · have hlen : wrapSeq.length = 289 := by
      show (List.replicate MAX_ENTRIES ("a") ++ [("c")]).length = 289
      rw [List.length_append, List.length_replicate]
      decide
    rw [hlen]
    decide
  · have hlen : wrapSeq.length = 289 := by
      show (List.replicate MAX_ENTRIES ("a") ++ [("c")]).length = 289
      rw [List.length_append, List.length_replicate]
      decide
    have hc : wrapSeq[(288 : Nat)]? = some ("c") := by
      show (List.replicate MAX_ENTRIES ("a") ++ [("c")])[(288 : Nat)]? = some ("c")
      rw [List.getElem?_append_right (by rw [List.length_replicate]; decide),
        List.length_replicate]
      decide
    have ha : wrapSeq[(1 : Nat)]? = some ("a") := by
      show (List.replicate MAX_ENTRIES ("a") ++ [("c")])[(1 : Nat)]? = some ("a")
      rw [List.getElem?_append_left (by rw [List.length_replicate]; decide),
        List.getElem?_replicate]
      decide
    have hslot := addAll_slot wrapSeq 288 (by rw [hlen]; decide)
      (by rw [hlen]; decide)
    rw [show (288 : Nat) % MAX_ENTRIES = 0 from rfl, hc] at hslot
    intro hEq
    have h1 : (wrapSeq.drop (wrapSeq.length - MAX_ENTRIES))[(0 : Nat)]? = some ("c") := by
      rw [← hEq]
      exact hslot
    rw [show wrapSeq.length - MAX_ENTRIES = 1 from by rw [hlen]; decide, List.getElem?_drop,
      show (1 : Nat) + 0 = 1 from rfl, ha] at h1
    exact absurd h1 (by decide)

/-- C2 witness: the slot property applied at a concrete one-entry sequence. -/
theorem stateBuffer_physical_order_witness :
    ((addAll [("x")]).get_all)[0 % MAX_ENTRIES]? = [("x")][(0 : Nat)]? :=
  stateBuffer_physical_order.2.1 [("x")] 0 (by decide) (by decide)

/-- C3: float validation is idempotent and coerces non-finite inputs to zero:
`validate_f64 (validate_f64 x) = validate_f64 x` for every `x` (both as
structural equality of the model and under IEEE `==`), `validate_f64` sends
NaN and the two infinities to `0.0`, and `validate_f32` behaves the same. -/
theorem validate_idempotent_and_nonfinite_to_zero :
    (∀ x : FP, validate_f64 (validate_f64 x) = validate_f64 x)
  ∧ (∀ x : FP, FP.feq (validate_f64 (validate_f64 x)) (validate_f64 x) = true)
  ∧ FP.feq (validate_f64 FP.nan) (FP.zero false) = true
  ∧ FP.feq (validate_f64 (FP.inf false)) (FP.zero false) = true
  ∧ FP.feq (validate_f64 (FP.inf true)) (FP.zero false) = true
  ∧ (∀ x : FP, validate_f32 (validate_f32 x) = validate_f32 x)
  ∧ (∀ x : FP, FP.feq (validate_f32 (validate_f32 x)) (validate_f32 x) = true)
  ∧ FP.feq (validate_f32 FP.nan) (FP.zero false) = true
  ∧ FP.feq (validate_f32 (FP.inf false)) (FP.zero false) = true
  ∧ FP.feq (validate_f32 (FP.inf true)) (FP.zero false) = true := by
  refine ⟨?_, ?_, by decide, by decide, by decide, ?_, ?_, by decide, by decide, by decide⟩ <;>
    intro x <;> cases x <;> simp [validate_f64, validate_f32, FP.isNormalFP, FP.feq]

/-- C9: validation returns `0.0` for every non-normal input (not only NaN and
the infinities): it is the identity on normal values, constantly `+0.0` on
everything else, and in particular sends the finite nonzero subnormal values
and both signed zeros to `0.0`. -/
theorem validate_identity_exactly_on_normal :
    (∀ x : FP, x.isNormalFP = true → validate_f64 x = x ∧ validate_f32 x = x)
  ∧ (∀ x : FP, x.isNormalFP = false →
      validate_f64 x = FP.zero false ∧ validate_f32 x = FP.zero false)
  ∧ validate_f64 (FP.subnormal false 1) = FP.zero false
  ∧ (FP.subnormal false 1).isFiniteFP = true
  ∧ FP.feq (FP.subnormal false 1) (FP.zero false) = false
  ∧ validate_f64 (FP.zero false) = FP.zero false
  ∧ validate_f64 (FP.zero true) = FP.zero false
  ∧ validate_f32 (FP.zero false) = FP.zero false
  ∧ validate_f32 (FP.zero true) = FP.zero false := by
  refine ⟨?_, ?_, by decide, by decide, by decide, by decide, by decide, by decide, by decide⟩ <;>
    intro x h <;> cases x <;> simp_all [validate_f64, validate_f32, FP.isNormalFP]

/-- C9 witness: the general parts applied at a normal value and at NaN. -/
theorem validate_identity_exactly_on_normal_witness :
    validate_f64 (FP.normal false 1 0) = FP.normal false 1 0
  ∧ validate_f64 FP.nan = FP.zero false :=
  ⟨(validate_identity_exactly_on_normal.1 (FP.normal false 1 0) (by decide)).1,
   (validate_identity_exactly_on_normal.2.1 FP.nan (by decide)).1⟩

/-- C4: `notify` returns `false` with no API key in the environment
(independently of any HTTP outcome, since no request is made), `false` on a
transport error, and on a received body it returns `true` exactly when the
body contains the literal substring `":true"`; in particular a body with
`"ok":false` and no `":true"` anywhere yields `false`, and any body containing
`":true"` yields `true`. -/
theorem notify_false_paths_and_substring_heuristic :
    (∀ out : HttpOutcome, notify none out = false)
  ∧ (∀ (k e : String), notify (some k) (HttpOutcome.transportError e) = false)
  ∧ (∀ (k body : String),
      notify (some k) (HttpOutcome.response (Except.ok body)) = strContains body (":true"))
  ∧ notify (some ("tok"))
      (HttpOutcome.response (Except.ok ("\"ok\":false,\"error\":\"not_authed\""))) = false
  ∧ notify (some ("tok"))
      (HttpOutcome.response (Except.ok ("\"ok\":true,\"channel\":\"C123\""))) = true := by
  exact ⟨fun _ => rfl, fun _ _ => rfl, fun _ _ => rfl, by decide, by decide⟩

/-- C6 counterexample: the log-level parser does not accept only the five
names `trace`, `debug`, `info`, `warn`, `error` — the string `"dbg"` is
outside that set yet parses successfully (to `Debug`) instead of being a
fatal parse error. -/
theorem get_level_accepts_dbg :
    get_level ("dbg") = some LogLevel.Debug
  ∧ ("dbg" ∉ (["trace", "debug", "info", "warn", "error"] : List String)) :=
  ⟨rfl, by decide⟩

/-- C6 (amended): the log-level argument accepts exactly the nine names
`trace`, `debug`, `dbg`, `info`, `inf`, `warn`, `warning`, `error`, `err`,
mapping each to its level; every other string reaches the default arm (a
fatal parse error that prints usage and exits non-zero). -/
theorem get_level_exactly_nine_names :
    get_level ("trace") = some LogLevel.Trace
  ∧ get_level ("debug") = some LogLevel.Debug
  ∧ get_level ("dbg") = some LogLevel.Debug
  ∧ get_level ("info") = some LogLevel.Info
  ∧ get_level ("inf") = some LogLevel.Info
  ∧ get_level ("warn") = some LogLevel.Warn
  ∧ get_level ("warning") = some LogLevel.Warn
  ∧ get_level ("error") = some LogLevel.Error
  ∧ get_level ("err") = some LogLevel.Error
  ∧ (∀ s : String,
      s ∉ (["trace", "debug", "dbg", "info", "inf", "warn", "warning", "error", "err"] :
        List String) →
      get_level s = none) := by
  refine ⟨rfl, rfl, rfl, rfl, rfl, rfl, rfl, rfl, rfl, ?_⟩
  intro s hs
  simp only [List.mem_cons, List.not_mem_nil, or_false, not_or] at hs
  obtain ⟨h1, h2, h3, h4, h5, h6, h7, h8, h9⟩ := hs
  simp [get_level, h1, h2, h3, h4, h5, h6, h7, h8, h9]

/-- C6 witness: the catch-all arm applied at a concrete unsupported name. -/
theorem get_level_exactly_nine_names_witness : get_level ("bogus") = none :=
  get_level_exactly_nine_names.2.2.2.2.2.2.2.2.2 ("bogus") (by decide)

theorem strContains_dash_h : strContains ("-h") ("rserve") = false := by decide

theorem strContains_dash_help : strContains ("--help") ("rserve") = false := by decide

theorem get_level_dash_h : get_level ("-h") = none := by decide

theorem get_level_dash_help : get_level ("--help") = none := by decide

theorem help_mem_tail {flag : String} {rest : List String}
    (h : "-h" ∈ flag :: rest ∨ "--help" ∈ flag :: rest)
    (hne1 : "-h" ≠ flag) (hne2 : "--help" ≠ flag) :
    "-h" ∈ rest ∨ "--help" ∈ rest := by
  rcases h with h | h <;> rcases List.mem_cons.mp h with h' | h'
  · exact absurd h' hne1
  · exact Or.inl h'
  · exact absurd h' hne2
  · exact Or.inr h'

/-- A `-h` or `--help` anywhere in the argument list makes the loop reach
`usage()` and exit: every other argument is either skipped, consumes one
following level argument (where `-h`/`--help` are not valid level names and
exit too), or exits even earlier. -/
theorem cliLoop_help_exits (cfg : Config) (args : List String) :
    ("-h" ∈ args ∨ "--help" ∈ args) → cliLoop cfg args = CliOutcome.exit (-1) := by
  induction cfg, args using cliLoop.induct with
  | case1 cfg =>
      intro h
      simp at h
  | case2 cfg lvl rest2 hstr ih =>
      intro h
      have hlvl1 : "-h" ≠ lvl := fun he => by
        rw [← he] at hstr
        exact absurd hstr (by decide)
      have hlvl2 : "--help" ≠ lvl := fun he => by
        rw [← he] at hstr
        exact absurd hstr (by decide)
      rw [cliLoop.eq_def]
      simp only [hstr, if_true]
      exact ih (help_mem_tail h hlvl1 hlvl2)
  | case3 cfg rest2 h1 ih =>
      intro h
      rw [cliLoop.eq_def]
      simp [h1]
      exact ih (help_mem_tail h (by decide) (by decide))
  | case4 cfg rest2 h1 h2 ih =>
      intro h
      rw [cliLoop.eq_def]
      simp [h1, h2]
      exact ih (help_mem_tail h (by decide) (by decide))
  | case5 cfg rest2 h1 h2 h3 ih =>
      intro h
      rw [cliLoop.eq_def]
      simp [h1, h2, h3]
      exact ih (help_mem_tail h (by decide) (by decide))
  | case6 cfg rest2 h1 h2 h3 h4 ih =>
      intro h
      rw [cliLoop.eq_def]
      simp [h1, h2, h3, h4]
      exact ih (help_mem_tail h (by decide) (by decide))
  | case7 cfg rest2 h1 h2 h3 h4 h5 ih =>
      intro h
      rw [cliLoop.eq_def]
      simp [h1, h2, h3, h4, h5]
      exact ih (help_mem_tail h (by decide) (by decide))
  | case8 cfg rest2 h1 h2 h3 h4 h5 h6 =>
      intro h
      rw [cliLoop.eq_def]
      simp [h1, h2, h3, h4, h5, h6, usageExit]
  | case9 cfg rest2 h1 h2 h3 h4 h5 h6 h7 =>
      intro h
      rw [cliLoop.eq_def]
      simp [h1, h2, h3, h4, h5, h6, h7, usageExit]
  | case10 cfg lvl h1 h2 h3 h4 h5 h6 h7 h8 hOr =>
      intro h
      rw [cliLoop.eq_def]
      simp [h1, h2, h3, h4, h5, h6, h7, h8, hOr, usageExit]
  | case11 cfg lvl h1 h2 h3 h4 h5 h6 h7 h8 hOr lvl1 rest2 l hsome ih =>
      intro h
      have k1 : "-h" ≠ lvl1 := fun he => by
        rw [← he, get_level_dash_h] at hsome
        exact Option.noConfusion hsome
      have k2 : "--help" ≠ lvl1 := fun he => by
        rw [← he, get_level_dash_help] at hsome
        exact Option.noConfusion hsome
      rw [cliLoop.eq_def]
      simp [h1, h2, h3, h4, h5, h6, h7, h8, hOr, hsome]
      exact ih (help_mem_tail (help_mem_tail h (fun he => h8 he.symm) (fun he => h7 he.symm))
        k1 k2)
  | case12 cfg lvl h1 h2 h3 h4 h5 h6 h7 h8 hOr lvl1 rest2 hnone =>
      intro h
      rw [cliLoop.eq_def]
      simp [h1, h2, h3, h4, h5, h6, h7, h8, hOr, hnone, usageExit]
  | case13 cfg lvl rest2 h1 h2 h3 h4 h5 h6 h7 h8 hne =>
      intro h
      rw [cliLoop.eq_def]
      simp [h1, h2, h3, h4, h5, h6, h7, h8, hne, usageExit]

/-- C5 counterexample: an unrecognized argument that contains the substring
`"rserve"` does not terminate the process — the program-name check skips it at
any position, and `cli` returns a configuration. -/
theorem cli_skips_rserve_arguments :
    cli [("./rserve"), ("extra-rserve-arg")] = CliOutcome.ok Config.new
  ∧ ("extra-rserve-arg" ∉ (["-s1", "-s2", "-s3", "--debug", "-d", "--help", "-h",
      "--level", "-l"] : List String)) :=
  ⟨by decide, by decide⟩

/-- C5 (amended): `-h`/`--help` anywhere in a multi-element `argv` terminates
the process via `usage()` with the non-zero exit code `-1`, and an examined
argument that is neither a recognized flag nor contains the substring
`"rserve"` (such arguments are skipped as program-name-like) likewise
terminates with `-1`; in those cases no configuration is returned. -/
theorem cli_parse_errors_fatal :
    (∀ args : List String, 1 < args.length → ("-h" ∈ args ∨ "--help" ∈ args) →
      cli args = CliOutcome.exit (-1))
  ∧ (∀ (cfg : Config) (arg : String) (rest : List String),
      strContains arg ("rserve") = false →
      arg ∉ (["-s1", "-s2", "-s3", "--debug", "-d", "--help", "-h", "--level", "-l"] :
        List String) →
      cliLoop cfg (arg :: rest) = CliOutcome.exit (-1))
  ∧ ((-1 : Int) ≠ 0) := by
  refine ⟨fun args hlen h => ?_, fun cfg arg rest hrs hmem => ?_, by decide⟩
  · unfold cli
    rw [if_pos hlen]
    exact cliLoop_help_exits Config.new args h
  · simp only [List.mem_cons, List.not_mem_nil, or_false, not_or] at hmem
    obtain ⟨h1, h2, h3, h4, h5, h6, h7, h8, h9⟩ := hmem
    rw [cliLoop.eq_def]
    simp [hrs, h1, h2, h3, h4, h5, h6, h7, h8, h9, usageExit]

/-- C5 witness: both fatal paths applied at concrete argument vectors. -/
theorem cli_parse_errors_fatal_witness :
    cli [("rserve"), ("-h")] = CliOutcome.exit (-1)
  ∧ cliLoop Config.new [("bogus")] = CliOutcome.exit (-1) :=
  ⟨cli_parse_errors_fatal.1 [("rserve"), ("-h")] (by decide) (by decide),
   cli_parse_errors_fatal.2.1 Config.new ("bogus") [] (by decide) (by decide)⟩

/-- C7: `get_cfg` returns a full copied snapshot of the global configuration,
never a live reference: after `set_cfg c` it returns a value equal to `c`
field for field, reading does not change the global state, and mutating the
returned copy (by an arbitrary updater) leaves the global state unchanged. -/
theorem get_cfg_returns_copied_snapshot :
    (∀ g c : Config,
      ((get_cfg (set_cfg g c).2).1.debug = c.debug
        ∧ (get_cfg (set_cfg g c).2).1.s1 = c.s1
        ∧ (get_cfg (set_cfg g c).2).1.s2 = c.s2
        ∧ (get_cfg (set_cfg g c).2).1.s3 = c.s3
        ∧ (get_cfg (set_cfg g c).2).1.llevel = c.llevel
        ∧ (get_cfg (set_cfg g c).2).1.lfile = c.lfile)
      ∧ (get_cfg (set_cfg g c).2).1 = c)
  ∧ (∀ g : Config, (get_cfg g).2 = g)
  ∧ (∀ (g : Config) (f : Config → Config), (mutateSnapshot g f).2 = g) :=
  ⟨fun _ _ => ⟨⟨rfl, rfl, rfl, rfl, rfl, rfl⟩, rfl⟩, fun _ => rfl, fun _ _ => rfl⟩

/-- C10: `ulog` sends `Info` and `Warn` messages to the supplied sink
unconditionally (for every configured level, hence also when it is `Error`);
`Trace` and `Debug` are suppressed when the configured level is above them;
and an `Error` message goes both to the sink and, via `perr`, to the log file
named by the configuration. -/
theorem ulog_severity_gating :
    ∀ (cfg : Config) (msg : String),
      ulog cfg .Info msg = ([logLine .Info msg], [])
    ∧ ulog cfg .Warn msg = ([logLine .Warn msg], [])
    ∧ (LogLevel.ble cfg.llevel .Trace = false → ulog cfg .Trace msg = ([], []))
    ∧ (LogLevel.ble cfg.llevel .Debug = false → ulog cfg .Debug msg = ([], []))
    ∧ ulog cfg .Error msg = ([logLine .Error msg], [(cfg.lfile, logLine .Error msg)]) := by
  intro cfg msg
  refine ⟨rfl, rfl, fun h => ?_, fun h => ?_, rfl⟩ <;> simp [ulog, h]

/-- C10 witness: at the `Error` log level, `Info` still reaches the sink while
`Trace` and `Debug` are suppressed. -/
theorem ulog_severity_gating_witness :
    ulog cfgErrorLevel .Info ("m") = ([logLine .Info ("m")], [])
  ∧ ulog cfgErrorLevel .Trace ("m") = ([], [])
  ∧ ulog cfgErrorLevel .Debug ("m") = ([], []) :=
  ⟨(ulog_severity_gating cfgErrorLevel ("m")).1,
   (ulog_severity_gating cfgErrorLevel ("m")).2.2.1 (by decide),
   (ulog_severity_gating cfgErrorLevel ("m")).2.2.2.1 (by decide)⟩

end RserveUtils
